import Mathlib

/-!
Shallow embedding of `src/services/camera_service.py` (classes `FaceDB`,
`Wakeface`, `RecordFace`) used to check the specification claims.

Modelling conventions: Python floats and image coordinates are modelled as
exact rationals; Python exceptions are modelled with `Except PyError`;
Python dicts whose insertion order matters are modelled as association
lists; the `queue.Queue` used as a mailbox is modelled as a FIFO list whose
head is the oldest element.  The external collaborators (camera, fdlite
detector, `face_recognition` embedding/compare functions) are parameters of
the embedded functions, per the spec's interface boundaries.
-/

/-- Python exceptions that the embedded code can raise. -/
inductive PyError
| zeroDivisionError
| fileNotFoundError
| modelInferenceError
| captureError
| persistenceError
| indexError
deriving DecidableEq

deriving instance DecidableEq for Except

/-- Frames are opaque to the pipeline logic; an identifier suffices. -/
abbrev Frame := Nat

/-- A face embedding: the code treats it as a numeric vector (128 components
in a well-formed store). -/
abbrev Emb := List ℚ

/-- A recognition result name: `none` is Python's `None` (the distinct
"unknown" value produced when no store entry matches). -/
abbrev Name := Option String

/-- Bounding box as produced by the fdlite detector (`face.bbox`). -/
structure BBox where
  xmin : ℚ
  ymin : ℚ
  xmax : ℚ
  ymax : ℚ
deriving DecidableEq

/-- Embeds `bbox.scale((w, h))`: scale normalized coordinates to pixels. -/
def BBox.scale (b : BBox) (w h : ℚ) : BBox :=
  ⟨b.xmin * w, b.ymin * h, b.xmax * w, b.ymax * h⟩

/-- The named keypoints read by `Wakeface.check_looking`
(`face[FaceIndex.*]`, lines 133-138), each an (x, y) pair. -/
structure FaceLandmarks where
  rightEyeTragion : ℚ × ℚ
  leftEyeTragion : ℚ × ℚ
  leftEye : ℚ × ℚ
  rightEye : ℚ × ℚ
  mouth : ℚ × ℚ
  noseTip : ℚ × ℚ
deriving DecidableEq

/-- One detection produced by the fdlite model: a bounding box plus the
landmarks consumed by the gaze filter. -/
structure DetFace where
  bbox : BBox
  landmarks : FaceLandmarks
deriving DecidableEq

/-- Python `/` raises `ZeroDivisionError` when the divisor is zero (also for
floats); otherwise it is exact division in this rational model. -/
def safeDiv (a b : ℚ) : Except PyError ℚ :=
  if b = 0 then .error .zeroDivisionError else .ok (a / b)

/-- Embeds `Wakeface.check_looking(face, incr)` (lines 130-152): normalize
the nose tip x into the tragion span and the nose tip y into the
eye-midpoint-to-mouth span, then test both against `[incr, 1-incr]`.  The
two divisions (lines 142 and 147) both execute before the interval check,
so a zero span raises before any boolean is produced. -/
def Wakeface.check_looking (face : FaceLandmarks) (incr : ℚ) : Except PyError Bool := do
  let xr := face.rightEyeTragion.1
  let xl := face.leftEyeTragion.1
  let ye1 := face.leftEye.2
  let ye2 := face.rightEye.2
  let ym := face.mouth.2
  let xn0 := face.noseTip.1
  let yn0 := face.noseTip.2
  let xn ← safeDiv (xn0 - xl) (xr - xl)
  let ye := (ye1 + ye2) / 2
  let yn ← safeDiv (yn0 - ye) (ym - ye)
  pure (decide (((0 + incr ≤ xn) ∧ (xn ≤ 1 - incr)) ∧ ((0 + incr ≤ yn) ∧ (yn ≤ 1 - incr))))

/-- An item of `self.face_queue`: the pair `(frame, bboxes_looking)` put by
the detector; `(None, [])` on the no-face branches. -/
abbrev MailItem := Option Frame × List BBox

/-- The `queue.Queue()` used between the two threads, modelled as a FIFO
list, head = oldest item.  Note the Python queue is unbounded. -/
abbrev Mailbox := List MailItem

/-- Embeds `self.face_queue.put(item)`: enqueue at the tail. -/
def mb_put (q : Mailbox) (item : MailItem) : Mailbox := q ++ [item]

/-- Embeds `while not self.face_queue.empty(): self.face_queue.get()`
(lines 95 and 107): drain every queued item. -/
def mb_drain (_q : Mailbox) : Mailbox := []

/-- Embeds `self.face_queue.get()` from a FIFO queue: the oldest item,
or `none` when the queue is empty (the Python call would block/time out). -/
def mb_get : Mailbox → Option (MailItem × Mailbox)
  | [] => none
  | i :: rest => some (i, rest)

/-- Embeds the publish done on the `NO_FACE` and `FACES_NOT_LOOKING`
branches (lines 95-96 and 107-108): drain the queue, then put `(None, [])`. -/
def publish_clear (q : Mailbox) : Mailbox := mb_put (mb_drain q) (none, [])

/-- Embeds the publish done on the `FACES_LOOKING` branch (line 117): put
`(frame, bboxes_looking)` WITHOUT draining the queue first. -/
def publish_look (q : Mailbox) (f : Frame) (boxes : List BBox) : Mailbox :=
  mb_put q (some f, boxes)

/-- The callback events emitted by the detector loop. -/
inductive DetectorEvent
| not_faces
| face_not_listen
| face_listen
deriving DecidableEq

/-- Embeds the filter comprehension of lines 99-103: keep
`face.bbox.scale((w, h))` for each face passing `check_looking`; a
`ZeroDivisionError` raised by `check_looking` propagates. -/
def filterLooking (w h : ℚ) : List DetFace → Except PyError (List BBox)
  | [] => .ok []
  | f :: rest => do
      let keep ← Wakeface.check_looking f.landmarks (1/4)
      let tail ← filterLooking w h rest
      pure (if keep then f.bbox.scale w h :: tail else tail)

/-- Embeds one iteration of `Wakeface._run_detector` (lines 83-117) after
the frame grab: `detections` is the result of the fdlite model call (an
`Except` so that a model failure can be represented); the iteration
returns the new queue contents and the emitted event, or the exception
that escapes the loop body. -/
def detector_iteration (w h : ℚ) (frame : Frame)
    (detections : Except PyError (List DetFace)) (q : Mailbox) :
    Except PyError (Mailbox × DetectorEvent) := do
  let faces ← detections
  if faces = [] then
    pure (publish_clear q, .not_faces)
  else do
    let bboxes_looking ← filterLooking w h faces
    if bboxes_looking = [] then
      pure (publish_clear q, .face_not_listen)
    else
      pure (publish_look q frame bboxes_looking, .face_listen)

/-- Python truthiness test `not name` used on line 167: `None` and the
empty string are falsy, every other name is truthy. -/
def pyFalsy : Name → Bool
  | none => true
  | some s => s == ""

/-- The `face_history` dict of `_run_recognize`: insertion-ordered mapping
from recognition result name to its counter. -/
abbrev History := List (Name × ℕ)

/-- Embeds `face_history.get(name, 0)`. -/
def hist_get (hist : History) (n : Name) : ℕ := (hist.lookup n).getD 0

/-- Embeds the dict comprehension of line 170:
`{name: face_history.get(name, 0) + 1 for name in names}` — the new history
has exactly the names of the current result set as keys (old keys not in
`names` are dropped). -/
def new_history (hist : History) (names : List Name) : History :=
  names.map (fun n => (n, hist_get hist n + 1))

/-- Embeds the guard of line 167:
`not face_history or all(count < 3 if not name else False for name, count in
face_history.items())`.  Note the conditional expression: a truthy name
makes its conjunct `False` outright; only falsy names are tested against
`count < 3`. -/
def episode_open (hist : History) : Bool :=
  hist.isEmpty || hist.all (fun nc => if pyFalsy nc.1 then decide (nc.2 < 3) else false)

/-- Embeds one loop body of `Wakeface._run_recognize` (lines 165-171) on a
received mailbox item: returns the new history and the payload of the
`face_recognized` event if one is emitted.  `recogFn` stands for
`self.recognize(frame, bboxes)`. -/
def recognize_step (recogFn : Option Frame → List BBox → List Name)
    (hist : History) (item : MailItem) : History × Option History :=
  match item with
  | (_, []) => ([], none)
  | (frame, boxes) =>
    if episode_open hist then
      let names := (recogFn frame boxes).eraseDups
      let h := new_history hist names
      (h, some h)
    else (hist, none)

/-- Runs `recognize_step` over a sequence of consumed mailbox items,
collecting the emitted `face_recognized` payloads in order. -/
def recognize_run (recogFn : Option Frame → List BBox → List Name) :
    History → List MailItem → History × List History
  | hist, [] => (hist, [])
  | hist, item :: rest =>
    let s := recognize_step recogFn hist item
    let r := recognize_run recogFn s.1 rest
    (r.1, s.2.toList ++ r.2)

/-- Embeds the counting loop of `Wakeface.recognize` lines 196-198:
`counts[name] = counts.get(name, 0) + 1` on an insertion-ordered dict. -/
def bump (counts : List (String × ℕ)) (n : String) : List (String × ℕ) :=
  if counts.any (fun p => decide (p.1 = n)) then
    counts.map (fun p => if p.1 = n then (p.1, p.2 + 1) else p)
  else counts ++ [(n, 1)]

/-- Embeds `max(counts, key=counts.get)` scanning an insertion-ordered
dict: Python's `max` keeps the current best unless a later value is
strictly greater, so it returns the first key attaining the maximum. -/
def max_key : String → ℕ → List (String × ℕ) → String
  | best, _, [] => best
  | best, bc, (n, c) :: rest => if bc < c then max_key n c rest else max_key best bc rest

/-- The store names at the matched indices, in store order: embeds
`[FaceDB.encodings["names"][i] for i in matchedIdxs]` (lines 192-197) with
the index selection folded into a zip-filter over the parallel lists. -/
def matched_names (names : List String) (ms : List Bool) : List String :=
  ((names.zip ms).filter (fun p => p.2)).map (fun p => p.1)

/-- Embeds the per-embedding body of `Wakeface.recognize` (lines 181-205):
`matchp` stands for the pairwise test done by
`face_recognition.compare_faces` (an external collaborator); if no store
entry matches the result is Python `None`, otherwise the voted name.  The
`[]` match arm is unreachable when a match exists. -/
def Wakeface.recognize_one (names : List String) (encs : List Emb)
    (matchp : Emb → Emb → Bool) (encoding : Emb) : Name :=
  let ms := encs.map (fun k => matchp k encoding)
  if ms.any (fun b => b) then
    match (matched_names names ms).foldl bump [] with
    | [] => none
    | (n, c) :: rest => some (max_key n c rest)
  else none

/-- Embeds `Wakeface.recognize(frame, bboxes_looking)` (lines 174-207):
`embedFn` stands for `face_recognition.face_encodings(frame, boxes)`; one
name (possibly `None`) is produced per returned encoding. -/
def Wakeface.recognize (names : List String) (encs : List Emb)
    (matchp : Emb → Emb → Bool) (embedFn : Option Frame → List BBox → List Emb)
    (frame : Option Frame) (boxes : List BBox) : List Name :=
  (embedFn frame boxes).map (Wakeface.recognize_one names encs matchp)

/-- One row of the persisted encodings file `name;v1;...;v128`: the name
field and the numeric fields, already split at the delimiter (the textual
float formatting layer is abstracted to exact rationals). -/
abbrev FileRow := String × List ℚ

/-- The backing file as a sequence of rows, append order preserved. -/
abbrev EncFile := List FileRow

/-- The in-memory `FaceDB.encodings` dict: parallel name and encoding
lists (`names` list and the rows of the encodings matrix). -/
structure Store where
  names : List String
  encodings : List Emb
deriving DecidableEq

/-- Embeds `FaceDB.load(encodings_file)` (lines 20-31).  The filesystem is
`none` when the file does not exist: `pd.read_csv` then raises
`FileNotFoundError`, which the `except pd.errors.EmptyDataError` clause
does NOT catch.  An existing zero-row file raises `EmptyDataError`, caught
and turned into the empty store.  Otherwise column 0 is the name and
columns 1..128 (`df.loc[:, 1:128]`) are the embedding components. -/
def FaceDB.load (file : Option EncFile) : Except PyError Store :=
  match file with
  | none => .error .fileNotFoundError
  | some [] => .ok ⟨[], []⟩
  | some rows => .ok ⟨rows.map (fun r => r.1), rows.map (fun r => r.2.take 128)⟩

/-- Embeds `FaceDB.append(name, new_encoding)` (lines 33-40): extend the
in-memory lists and append one `name;v1;...` row to the backing file. -/
def FaceDB.append (s : Store) (file : EncFile) (name : String) (enc : Emb) :
    Store × EncFile :=
  (⟨s.names ++ [name], s.encodings ++ [enc]⟩, file ++ [(name, enc)])

/-- Outcome of the enrollment loop `RecordFace._run`. -/
inductive EnrollOutcome
| finished
| cancelled
| crashed (e : PyError)
| outOfTrace
deriving DecidableEq

/-- Per-iteration environment of `RecordFace._run`: the stop-flag value
observed at the loop test, and the results of the external calls the body
makes (camera capture, fdlite detection, `face_encodings`, and the file
write inside `FaceDB.append`). -/
structure EnrollIterEnv where
  stopFlagSet : Bool
  w : ℚ
  h : ℚ
  captureResult : Except PyError Frame
  detections : Except PyError (List DetFace)
  encodeResult : Except PyError (List Emb)
  appendResult : Except PyError Unit
deriving DecidableEq

/-- Embeds one loop body of `RecordFace._run` (lines 234-263): on success
returns the new counter and the `recording_face` progress payload when a
face was recorded; any exception raised by a call in the body propagates.
`encodings[0]` on an empty list raises `IndexError`. -/
def RecordFace.iter (n_frames counter : ℕ) (env : EnrollIterEnv) :
    Except PyError (ℕ × Option ℚ) := do
  let _frame ← env.captureResult
  let faces ← env.detections
  if faces = [] then pure (counter, none)
  else do
    let bboxes_looking ← filterLooking env.w env.h faces
    if bboxes_looking = [] then pure (counter, none)
    else do
      let encs ← env.encodeResult
      match encs with
      | [] => .error .indexError
      | _ :: _ => do
          let _ ← env.appendResult
          pure (counter + 1, some (((counter : ℚ) + 1) * 100 / (n_frames : ℚ)))

/-- Result of running `RecordFace._run`: how the loop ended, whether
control reached the `CameraService.camera.stop(...)` call on line 265, and
the emitted progress values. -/
structure EnrollResult where
  outcome : EnrollOutcome
  cameraStopped : Bool
  progressEvents : List ℚ
deriving DecidableEq

/-- Embeds the `while counter < n_frames and not self.stopped.is_set()`
loop of `RecordFace._run` (lines 233-265) over a finite trace of
per-iteration environments.  The camera stop on line 265 is reached only
when the loop exits normally (counter full or stop flag); an exception
raised in the body propagates past it.  `outOfTrace` is the modelling
artifact for a trace shorter than the loop's demand. -/
def RecordFace.run_loop (n_frames : ℕ) : ℕ → List ℚ → List EnrollIterEnv → EnrollResult
  | counter, events, [] =>
      if n_frames ≤ counter then ⟨.finished, true, events⟩
      else ⟨.outOfTrace, false, events⟩
  | counter, events, env :: rest =>
      if n_frames ≤ counter then ⟨.finished, true, events⟩
      else if env.stopFlagSet then ⟨.cancelled, true, events⟩
      else match RecordFace.iter n_frames counter env with
        | .error e => ⟨.crashed e, false, events⟩
        | .ok (c, none) => RecordFace.run_loop n_frames c events rest
        | .ok (c, some p) => RecordFace.run_loop n_frames c (events ++ [p]) rest

/-- Shared state of the wakeface thread pair relevant to the
initialization race: `face_queue` is `None` (line 64) until the
recognizer's first statement creates it (line 155); `detectorCrashed`
records that the detector thread died on an uncaught exception. -/
structure WFState where
  face_queue : Option Mailbox
  detectorCrashed : Bool
deriving DecidableEq

/-- State right after `Wakeface.__init__` and `Wakeface.start()`: both
threads are running and the queue has not been created yet. -/
def wf_init : WFState := ⟨none, false⟩

/-- Thread identifiers for the interleaving model. -/
inductive Tid
| detector
| recognizer
deriving DecidableEq

/-- One atomic scheduler step: the recognizer's first action executes
`self.face_queue = queue.Queue()` (line 155); the detector's first queue
access (`empty`/`put` on lines 95-96, 107-108 or 117, abstracted as `pub`)
raises `AttributeError` when `face_queue` is still `None`, killing the
detector thread; a dead detector takes no further steps. -/
def wf_step (pub : Mailbox → Mailbox) (s : WFState) : Tid → WFState
  | .detector =>
      if s.detectorCrashed then s
      else match s.face_queue with
        | none => { s with detectorCrashed := true }
        | some q => { s with face_queue := some (pub q) }
  | .recognizer => { s with face_queue := some [] }

/-- Run the thread pair under an explicit interleaving schedule. -/
def wf_run (pub : Mailbox → Mailbox) (sched : List Tid) : WFState :=
  sched.foldl (wf_step pub) wf_init

/-- A concrete detection whose nose tip is at the midpoint of both spans:
it passes the gaze filter at tolerance 1/4. -/
def lookingFace : DetFace := ⟨⟨0, 0, 1, 1⟩, ⟨(1, 0), (0, 0), (0, 0), (1, 0), (0, 1), (1/2, 1/2)⟩⟩

/-- A recognition function whose result set is always exactly "alice"
(models frames on which the recognizer always recognizes alice). -/
def aliceRecog : Option Frame → List BBox → List Name := fun _ _ => [some "alice"]

/-- A mailbox item with a non-empty accepted-box list. -/
def aliceItem : MailItem := (some 0, [⟨0, 0, 1, 1⟩])

/-- The `(None, [])` mailbox item published when no accepted face exists. -/
def clearItem : MailItem := (none, [])

/-- First occurrences of each value of a list, in order of first
appearance: the key sequence of an insertion-ordered Python dict built by
scanning the list. -/
def firstOccs : List String → List String
  | [] => []
  | a :: l => a :: (firstOccs l).filter (fun x => decide (x ≠ a))

/-- The counter dict that scanning `l` builds: each distinct value of `l`
in first-occurrence order, paired with its multiplicity in `l`. -/
def countsOf (l : List String) : List (String × ℕ) :=
  (firstOccs l).map (fun n => (n, l.count n))

theorem except_bind_ok {ε α β : Type} (a : α) (f : α → Except ε β) :
    ((Except.ok a : Except ε α) >>= f) = f a := rfl

theorem except_bind_error {ε α β : Type} (e : ε) (f : α → Except ε β) :
    ((Except.error e : Except ε α) >>= f) = Except.error e := rfl

theorem except_pure {ε α : Type} (a : α) : (pure a : Except ε α) = Except.ok a := rfl

theorem check_looking_mid : Wakeface.check_looking lookingFace.landmarks (1/4) = .ok true := by
  simp [lookingFace, Wakeface.check_looking, safeDiv, except_bind_ok]
  norm_num

theorem filterLooking_one : filterLooking 1 1 [lookingFace] = .ok [⟨0, 0, 1, 1⟩] := by
  simp only [filterLooking, check_looking_mid, except_bind_ok, except_pure]
  simp [lookingFace, BBox.scale]

theorem detector_iteration_looking (f : Frame) (q : Mailbox) :
    detector_iteration 1 1 f (.ok [lookingFace]) q
      = .ok (publish_look q f [⟨0, 0, 1, 1⟩], .face_listen) := by
  simp [detector_iteration, filterLooking_one, except_bind_ok, except_pure]

theorem record_iter_append_crash :
    RecordFace.iter 6 0 ⟨false, 1, 1, .ok 0, .ok [lookingFace], .ok [[5]], .error .persistenceError⟩
      = .error .persistenceError := by
  simp [RecordFace.iter, filterLooking_one, except_bind_ok, except_pure, except_bind_error]

theorem alice_step_skip :
    recognize_step aliceRecog [(some "alice", 1)] aliceItem = ([(some "alice", 1)], none) := by
  decide

theorem alice_skip (m : ℕ) (rest : List MailItem) :
    recognize_run aliceRecog [(some "alice", 1)] (List.replicate m aliceItem ++ rest)
      = recognize_run aliceRecog [(some "alice", 1)] rest := by
  induction m with
  | zero => rfl
  | succ k ih =>
      rw [List.replicate_succ, List.cons_append]
      simpa [recognize_run, alice_step_skip] using ih

/-- C10: the mailbox consumed by the recognition thread is created inside
that thread's own body (`face_queue` is still `None` right after
`start()`), so under the interleaving that lets the detector reach its
first queue access before the recognizer's first statement, the access
fails and the detection loop dies; the opposite interleaving is safe. -/
theorem C10_mailbox_init_race :
    wf_init.face_queue = none ∧
    (wf_run publish_clear [Tid.detector]).detectorCrashed = true ∧
    (wf_run publish_clear [Tid.recognizer, Tid.detector]).detectorCrashed = false :=
  ⟨rfl, by decide, by decide⟩

/-- C4: `FaceDB.load` degrades to the empty store on an existing empty
file (the `EmptyDataError` handler), but a missing backing file raises
`FileNotFoundError`, which is not caught — contradicting the claim that a
missing file also yields an empty store without raising. -/
theorem C4_load_missing_file_raises :
    FaceDB.load none = .error .fileNotFoundError ∧
    FaceDB.load (some []) = .ok ⟨[], []⟩ :=
  ⟨rfl, rfl⟩

/-- C6: when the face-detection model call fails, the exception propagates
out of the detector loop body (the iteration does NOT run the `NO_FACE`
branch that would publish `(None, [])` with a `not_faces` event) — the
thread crashes, contradicting the claim. -/
theorem C6_model_failure_crashes (q : Mailbox) (f : Frame) :
    detector_iteration 1 1 f (.error .modelInferenceError) q = .error .modelInferenceError ∧
    detector_iteration 1 1 f (.error .modelInferenceError) q
      ≠ .ok (publish_clear q, DetectorEvent.not_faces) := by
  have h0 : detector_iteration 1 1 f (.error .modelInferenceError) q
      = .error .modelInferenceError := rfl
  exact ⟨h0, by rw [h0]; simp⟩

/-- C5: a persistence failure raised by `FaceDB.append` inside the
enrollment loop body propagates out of `RecordFace._run` WITHOUT reaching
the camera stop call on line 265 (`cameraStopped = false`), contradicting
the claim that the stop call is reached on every exit path; the normal
and cancellation exits do reach it. -/
theorem C5_enroll_release_not_guaranteed :
    RecordFace.run_loop 6 0 []
        [⟨false, 1, 1, .ok 0, .ok [lookingFace], .ok [[5]], .error .persistenceError⟩]
      = ⟨.crashed .persistenceError, false, []⟩ ∧
    RecordFace.run_loop 6 0 [] [⟨true, 1, 1, .ok 0, .ok [], .ok [], .ok ()⟩]
      = ⟨.cancelled, true, []⟩ ∧
    RecordFace.run_loop 6 6 [] [] = ⟨.finished, true, []⟩ := by
  refine ⟨?_, rfl, rfl⟩
  simp [RecordFace.run_loop, record_iter_append_crash]

/-- C2 counterexample: two consecutive `FACES_LOOKING` publishes without a
consume leave TWO items in the queue (the Python `queue.Queue` is
unbounded and line 117 does not drain it), and the first `get` observes
the FIRST published value, not the second — refuting both the
at-most-one-item and the second-value-observable parts of the claim. -/
theorem C2_mailbox_counterexample :
    detector_iteration 1 1 1 (.ok [lookingFace]) []
      = .ok ([(some 1, [⟨0, 0, 1, 1⟩])], .face_listen) ∧
    detector_iteration 1 1 2 (.ok [lookingFace]) [(some 1, [⟨0, 0, 1, 1⟩])]
      = .ok ([(some 1, [⟨0, 0, 1, 1⟩]), (some 2, [⟨0, 0, 1, 1⟩])], .face_listen) ∧
    ¬ (([(some 1, [⟨0, 0, 1, 1⟩]), (some 2, [⟨0, 0, 1, 1⟩])] : Mailbox).length ≤ 1) ∧
    mb_get [(some 1, [(⟨0, 0, 1, 1⟩ : BBox)]), (some 2, [⟨0, 0, 1, 1⟩])]
      = some ((some 1, [⟨0, 0, 1, 1⟩]), [(some 2, [⟨0, 0, 1, 1⟩])]) := by
  refine ⟨?_, ?_, by norm_num, rfl⟩
  · rw [detector_iteration_looking]; rfl
  · rw [detector_iteration_looking]; rfl

/-- C2 amended: a publish on the `NO_FACE`/`FACES_NOT_LOOKING` branches
first drains the queue, so it leaves exactly the new `(None, [])` item;
but a `FACES_LOOKING` publish appends without draining, so two such
publishes without an intervening consume leave both items queued in FIFO
order and the consumer observes the FIRST one first. -/
theorem C2_mailbox_amended :
    (∀ q : Mailbox, publish_clear q = [(none, [])]) ∧
    (∀ (q : Mailbox) (f1 f2 : Frame) (b1 b2 : List BBox),
        publish_look (publish_look q f1 b1) f2 b2 = q ++ [(some f1, b1), (some f2, b2)]) ∧
    (∀ (f1 f2 : Frame) (b1 b2 : List BBox),
        mb_get (publish_look (publish_look [] f1 b1) f2 b2)
          = some ((some f1, b1), [(some f2, b2)])) := by
  refine ⟨fun q => rfl, fun q f1 f2 b1 b2 => by simp [publish_look, mb_put], fun f1 f2 b1 b2 => rfl⟩

/-- C3: on a landmark set with a zero eye-tragion span or a zero
eye-to-mouth span, `check_looking` raises `ZeroDivisionError` (the
divisions on lines 142/147 are unguarded) instead of returning false —
the claim states the intended guard, the code lacks it. -/
theorem C3_degenerate_geometry_raises (face : FaceLandmarks) (incr : ℚ)
    (h : face.rightEyeTragion.1 = face.leftEyeTragion.1 ∨
         face.mouth.2 = (face.leftEye.2 + face.rightEye.2) / 2) :
    Wakeface.check_looking face incr = .error .zeroDivisionError := by
  rcases h with h | h
  · have hx : face.rightEyeTragion.1 - face.leftEyeTragion.1 = 0 := by rw [h]; ring
    simp [Wakeface.check_looking, safeDiv, hx, except_bind_error]
  · by_cases hx : face.rightEyeTragion.1 - face.leftEyeTragion.1 = 0
    · simp [Wakeface.check_looking, safeDiv, hx, except_bind_error]
    · have hy : face.mouth.2 - (face.leftEye.2 + face.rightEye.2) / 2 = 0 := by rw [h]; ring
      simp [Wakeface.check_looking, safeDiv, hx, hy, except_bind_ok, except_bind_error]

/-- Witness: a landmark set whose two eye tragions share x = 0 makes
`check_looking` raise. -/
theorem C3_degenerate_geometry_witness :
    Wakeface.check_looking ⟨(0, 5), (0, 0), (0, 0), (1, 0), (0, 1), (1/2, 1/2)⟩ (1/4)
      = .error .zeroDivisionError :=
  C3_degenerate_geometry_raises _ _ (Or.inl (by norm_num))

/-- C9: with positive tragion and eye-to-mouth spans, a nose tip at the
midpoint of both spans normalizes to (1/2, 1/2) and is accepted at
tolerance 1/4; a nose tip whose x coincides with either tragion
normalizes to x = 0 or x = 1 and is rejected for every positive
tolerance. -/
theorem C9_gaze_boundary :
    (∀ face : FaceLandmarks,
        face.leftEyeTragion.1 < face.rightEyeTragion.1 →
        (face.leftEye.2 + face.rightEye.2) / 2 < face.mouth.2 →
        face.noseTip.1 = (face.leftEyeTragion.1 + face.rightEyeTragion.1) / 2 →
        face.noseTip.2 = ((face.leftEye.2 + face.rightEye.2) / 2 + face.mouth.2) / 2 →
        Wakeface.check_looking face (1/4) = .ok true) ∧
    (∀ (face : FaceLandmarks) (incr : ℚ), 0 < incr →
        face.leftEyeTragion.1 < face.rightEyeTragion.1 →
        (face.leftEye.2 + face.rightEye.2) / 2 < face.mouth.2 →
        (face.noseTip.1 = face.leftEyeTragion.1 ∨ face.noseTip.1 = face.rightEyeTragion.1) →
        Wakeface.check_looking face incr = .ok false) := by
  constructor
  · intro face h1 h2 hx hy
    have hxne : face.rightEyeTragion.1 - face.leftEyeTragion.1 ≠ 0 := sub_ne_zero.mpr h1.ne'
    have hyne : face.mouth.2 - (face.leftEye.2 + face.rightEye.2) / 2 ≠ 0 := sub_ne_zero.mpr h2.ne'
    have e1 : (face.noseTip.1 - face.leftEyeTragion.1) /
        (face.rightEyeTragion.1 - face.leftEyeTragion.1) = 1/2 := by
      rw [hx, div_eq_iff hxne]; ring
    have e2 : (face.noseTip.2 - (face.leftEye.2 + face.rightEye.2) / 2) /
        (face.mouth.2 - (face.leftEye.2 + face.rightEye.2) / 2) = 1/2 := by
      rw [hy, div_eq_iff hyne]; ring
    simp only [Wakeface.check_looking, safeDiv, if_neg hxne, if_neg hyne,
      except_bind_ok, except_pure, e1, e2]
    norm_num
  · intro face incr hpos h1 h2 hc
    have hxne : face.rightEyeTragion.1 - face.leftEyeTragion.1 ≠ 0 := sub_ne_zero.mpr h1.ne'
    have hyne : face.mouth.2 - (face.leftEye.2 + face.rightEye.2) / 2 ≠ 0 := sub_ne_zero.mpr h2.ne'
    rcases hc with hc | hc
    · have e1 : (face.noseTip.1 - face.leftEyeTragion.1) /
          (face.rightEyeTragion.1 - face.leftEyeTragion.1) = 0 := by
        rw [hc]; simp
      simp only [Wakeface.check_looking, safeDiv, if_neg hxne, if_neg hyne,
        except_bind_ok, except_pure, e1]
      exact congrArg Except.ok (by
        rw [decide_eq_false_iff_not]
        rintro ⟨⟨ha, -⟩, -⟩
        linarith)
    · have e1 : (face.noseTip.1 - face.leftEyeTragion.1) /
          (face.rightEyeTragion.1 - face.leftEyeTragion.1) = 1 := by
        rw [hc]; exact div_self hxne
      simp only [Wakeface.check_looking, safeDiv, if_neg hxne, if_neg hyne,
        except_bind_ok, except_pure, e1]
      exact congrArg Except.ok (by
        rw [decide_eq_false_iff_not]
        rintro ⟨⟨-, hb⟩, -⟩
        linarith)

/-- Witness: a concrete landmark set with unit spans is accepted with the
nose at the midpoint and rejected with the nose over the left tragion. -/
theorem C9_gaze_boundary_witness :
    Wakeface.check_looking ⟨(1, 0), (0, 0), (0, 0), (1, 0), (0, 1), (1/2, 1/2)⟩ (1/4)
      = .ok true ∧
    Wakeface.check_looking ⟨(1, 0), (0, 0), (0, 0), (1, 0), (0, 1), (0, 1/2)⟩ (1/4)
      = .ok false :=
  ⟨C9_gaze_boundary.1 _ (by norm_num) (by norm_num) (by norm_num) (by norm_num),
   C9_gaze_boundary.2 _ _ (by norm_num) (by norm_num) (by norm_num) (Or.inl (by norm_num))⟩

/-- C1 counterexample: on three successive items all recognizing exactly
"alice", the code emits exactly ONE `face_recognized` event, with count 1,
and then skips recognition although alice's count (1) is still below 3 —
the guard on line 167 maps every truthy name to `False`, so the claimed
strictly-increasing counts 1, 2, 3 never happen. -/
theorem C1_debounce_counterexample :
    recognize_run aliceRecog [] [aliceItem, aliceItem, aliceItem]
      = ([(some "alice", 1)], [[(some "alice", 1)]]) ∧
    (recognize_run aliceRecog [] [aliceItem, aliceItem, aliceItem]).2
      ≠ [[(some "alice", 1)], [(some "alice", 2)], [(some "alice", 3)]] := by
  have h : recognize_run aliceRecog [] [aliceItem, aliceItem, aliceItem]
      = ([(some "alice", 1)], [[(some "alice", 1)]]) := by decide
  exact ⟨h, by rw [h]; decide⟩

/-- C1 amended: for every run of non-empty-box items all recognizing
exactly "alice", only the first item produces a `face_recognized` event
(payload alice -> 1); all later such items skip recognition with the
history unchanged, because the history now holds a truthy name and the
count-below-3 debounce applies only to falsy names; an item with an empty
box list then clears the history. -/
theorem C1_debounce_amended (n : ℕ) :
    recognize_run aliceRecog [] (aliceItem :: (List.replicate n aliceItem ++ [clearItem]))
      = ([], [[(some "alice", 1)]]) := by
  have h0 : recognize_step aliceRecog [] aliceItem
      = ([(some "alice", 1)], some [(some "alice", 1)]) := by decide
  have h1 : recognize_step aliceRecog [(some "alice", 1)] clearItem = ([], none) := by decide
  simp [recognize_run, h0, alice_skip, h1]

/-- C8: appending a (name, 128-component embedding) row to the backing
file and reloading yields a store whose last entry is exactly the appended
pair and whose earlier entries are the loaded form of the prior file —
the model uses exact rationals, so "within floating-point tolerance" is
exact equality here. -/
theorem C8_store_roundtrip (file : EncFile) (s : Store) (name : String) (enc : Emb)
    (hlen : enc.length = 128) :
    ∃ t : Store,
      FaceDB.load (some (FaceDB.append s file name enc).2) = .ok t ∧
      t.names = file.map (fun r => r.1) ++ [name] ∧
      t.encodings = file.map (fun r => r.2.take 128) ++ [enc] ∧
      t.names.getLast? = some name ∧
      t.encodings.getLast? = some enc ∧
      (FaceDB.load (some file)).toOption = some ⟨t.names.dropLast, t.encodings.dropLast⟩ := by
  have htake : enc.take 128 = enc := by
    rw [← hlen]; exact List.take_length enc
  cases file with
  | nil =>
      refine ⟨⟨[name], [enc]⟩, ?_, by simp, by simp, by simp, by simp, rfl⟩
      simp [FaceDB.append, FaceDB.load, htake]
  | cons r rest =>
      refine ⟨⟨(r :: rest).map (fun x => x.1) ++ [name],
               (r :: rest).map (fun x => x.2.take 128) ++ [enc]⟩, ?_, by simp, by simp, ?_, ?_, ?_⟩
      · simp [FaceDB.append, FaceDB.load, htake]
      · show (r.1 :: (List.map (fun x => x.1) rest ++ [name])).getLast? = some name
        rw [← List.cons_append, List.getLast?_concat]
      · show ((r.2.take 128) :: (List.map (fun x => x.2.take 128) rest ++ [enc])).getLast?
            = some enc
        rw [← List.cons_append, List.getLast?_concat]
      · show (FaceDB.load (some (r :: rest))).toOption
            = some ⟨(r.1 :: (List.map (fun x => x.1) rest ++ [name])).dropLast,
                    ((r.2.take 128) :: (List.map (fun x => x.2.take 128) rest ++ [enc])).dropLast⟩
        rw [← List.cons_append, ← List.cons_append, List.dropLast_concat, List.dropLast_concat]
        rfl

/-- Witness for the round-trip at a concrete one-row file and a concrete
128-component embedding. -/
theorem C8_store_roundtrip_witness :
    ∃ t : Store,
      FaceDB.load (some (FaceDB.append ⟨["bob"], [List.replicate 128 0]⟩
          [("bob", List.replicate 128 0)] "alice" (List.replicate 128 (1/2))).2) = .ok t ∧
      t.names = [("bob", (List.replicate 128 (0:ℚ)))].map (fun r => r.1) ++ ["alice"] ∧
      t.encodings = [("bob", (List.replicate 128 (0:ℚ)))].map (fun r => r.2.take 128)
        ++ [List.replicate 128 (1/2)] ∧
      t.names.getLast? = some "alice" ∧
      t.encodings.getLast? = some (List.replicate 128 (1/2)) ∧
      (FaceDB.load (some [("bob", List.replicate 128 0)])).toOption
        = some ⟨t.names.dropLast, t.encodings.dropLast⟩ :=
  C8_store_roundtrip [("bob", List.replicate 128 0)] ⟨["bob"], [List.replicate 128 0]⟩
    "alice" (List.replicate 128 (1/2)) (by simp)

theorem mem_firstOccs {x : String} : ∀ {l : List String}, x ∈ firstOccs l ↔ x ∈ l := by
  intro l
  induction l with
  | nil => simp [firstOccs]
  | cons a t ih =>
      simp only [firstOccs, List.mem_cons, List.mem_filter, ih, decide_eq_true_eq]
      by_cases hxa : x = a
      · simp [hxa]
      · simp [hxa]

theorem firstOccs_eq_nil {l : List String} (h : firstOccs l = []) : l = [] := by
  cases l with
  | nil => rfl
  | cons a t => simp [firstOccs] at h

theorem firstOccs_append_singleton (a : String) : ∀ (l : List String),
    firstOccs (l ++ [a]) = if a ∈ l then firstOccs l else firstOccs l ++ [a] := by
  intro l
  induction l with
  | nil => simp [firstOccs]
  | cons x t ih =>
      simp only [List.cons_append, firstOccs, List.append_eq]
      rw [ih]
      by_cases h : a ∈ t
      · rw [if_pos h, if_pos (List.mem_cons_of_mem x h)]
      · rw [if_neg h]
        by_cases hxa : a = x
        · subst hxa
          rw [if_pos (List.mem_cons_self a t), List.filter_append]
          simp
        · rw [if_neg (by simp [hxa, h] : ¬ a ∈ x :: t), List.filter_append]
          simp [hxa]

theorem countsOf_keys_mem {l : List String} {p : String × ℕ} (hp : p ∈ countsOf l) :
    p.1 ∈ l ∧ p.2 = l.count p.1 := by
  rcases List.mem_map.mp hp with ⟨n, hn, rfl⟩
  exact ⟨mem_firstOccs.mp hn, rfl⟩

theorem bump_countsOf (l : List String) (a : String) :
    bump (countsOf l) a = countsOf (l ++ [a]) := by
  by_cases h : a ∈ l
  · have hany : (countsOf l).any (fun p => decide (p.1 = a)) = true := by
      refine List.any_eq_true.mpr ⟨(a, l.count a), ?_, by simp⟩
      exact List.mem_map.mpr ⟨a, mem_firstOccs.mpr h, rfl⟩
    rw [bump, if_pos hany]
    unfold countsOf
    rw [firstOccs_append_singleton, if_pos h, List.map_map]
    refine List.map_congr_left ?_
    intro n hn
    by_cases hna : n = a
    · subst hna
      simp [List.count_append, List.count_singleton]
    · simp [hna, List.count_append, List.count_singleton, Ne.symm hna]
  · have hany : (countsOf l).any (fun p => decide (p.1 = a)) = false := by
      refine List.any_eq_false.mpr ?_
      intro p hp
      have := (countsOf_keys_mem hp).1
      simp only [decide_eq_true_eq]
      intro hpa
      exact h (hpa ▸ this)
    rw [bump, if_neg (by rw [hany]; exact Bool.false_ne_true)]
    unfold countsOf
    rw [firstOccs_append_singleton, if_neg h, List.map_append]
    have h1 : (firstOccs l).map (fun n => (n, (l ++ [a]).count n))
        = (firstOccs l).map (fun n => (n, l.count n)) := by
      refine List.map_congr_left ?_
      intro n hn
      have hna : n ≠ a := fun he => h (he ▸ mem_firstOccs.mp hn)
      simp [List.count_append, List.count_singleton, Ne.symm hna]
    have h2 : ([a] : List String).map (fun n => (n, (l ++ [a]).count n)) = [(a, 1)] := by
      have hz : List.count a l = 0 := List.count_eq_zero.mpr h
      simp [List.count_append, hz]
    rw [h1, h2]

theorem foldl_bump_countsOf : ∀ (l p : List String),
    l.foldl bump (countsOf p) = countsOf (p ++ l) := by
  intro l
  induction l with
  | nil => intro p; simp
  | cons a t ih =>
      intro p
      rw [List.foldl_cons, bump_countsOf p a, ih (p ++ [a])]
      simp

theorem foldl_bump_nil (l : List String) : l.foldl bump [] = countsOf l := by
  simpa [countsOf, firstOccs] using foldl_bump_countsOf l []

theorem pairwise_imp_mem {α : Type} {R S : α → α → Prop} :
    ∀ {l : List α}, (∀ x ∈ l, ∀ y ∈ l, R x y → S x y) → l.Pairwise R → l.Pairwise S := by
  intro l
  induction l with
  | nil => intro _ _; exact List.Pairwise.nil
  | cons a t ih =>
      intro h hp
      rcases List.pairwise_cons.mp hp with ⟨h1, h2⟩
      refine List.pairwise_cons.mpr ⟨?_, ih ?_ h2⟩
      · intro y hy
        exact h a (List.mem_cons_self a t) y (List.mem_cons_of_mem a hy) (h1 y hy)
      · intro x hx y hy hr
        exact h x (List.mem_cons_of_mem a hx) y (List.mem_cons_of_mem a hy) hr

theorem pairwise_firstOccs : ∀ (l : List String),
    (firstOccs l).Pairwise (fun x y => l.indexOf x < l.indexOf y) := by
  intro l
  induction l with
  | nil => exact List.Pairwise.nil
  | cons a t ih =>
      refine List.pairwise_cons.mpr ⟨?_, ?_⟩
      · intro y hy
        have hyne : y ≠ a := by
          rcases List.mem_filter.mp hy with ⟨-, h2⟩
          simpa using h2
        rw [List.indexOf_cons_self, List.indexOf_cons_ne _ (Ne.symm hyne)]
        exact Nat.succ_pos _
      · have hfil : ((firstOccs t).filter (fun x => decide (x ≠ a))).Pairwise
            (fun x y => t.indexOf x < t.indexOf y) :=
          List.Pairwise.sublist (List.filter_sublist _) ih
        refine pairwise_imp_mem ?_ hfil
        intro x hx y hy hr
        have hxne : x ≠ a := by
          rcases List.mem_filter.mp hx with ⟨-, h2⟩
          simpa using h2
        have hyne : y ≠ a := by
          rcases List.mem_filter.mp hy with ⟨-, h2⟩
          simpa using h2
        rw [List.indexOf_cons_ne _ (Ne.symm hxne), List.indexOf_cons_ne _ (Ne.symm hyne)]
        exact Nat.succ_lt_succ hr

theorem max_key_split : ∀ (rest : List (String × ℕ)) (best : String) (bc : ℕ),
    ∃ pre c post,
      (best, bc) :: rest = pre ++ (max_key best bc rest, c) :: post ∧
      (∀ p ∈ pre, p.2 < c) ∧ (∀ p ∈ post, p.2 ≤ c) := by
  intro rest
  induction rest with
  | nil =>
      intro best bc
      exact ⟨[], bc, [], rfl, by simp, by simp⟩
  | cons hd tl ih =>
      intro best bc
      obtain ⟨n, c0⟩ := hd
      by_cases h : bc < c0
      · obtain ⟨pre, c, post, heq, hpre, hpost⟩ := ih n c0
        have hc0c : c0 ≤ c := by
          have hmem : (n, c0) ∈ pre ++ (max_key n c0 tl, c) :: post := by
            rw [← heq]; exact List.mem_cons_self _ _
          rcases List.mem_append.mp hmem with hm | hm
          · exact le_of_lt (hpre _ hm)
          · rcases List.mem_cons.mp hm with hm | hm
            · exact le_of_eq (congrArg Prod.snd hm)
            · exact hpost _ hm
        refine ⟨(best, bc) :: pre, c, post, ?_, ?_, hpost⟩
        · rw [max_key, if_pos h, List.cons_append, heq]
        · intro p hp
          rcases List.mem_cons.mp hp with rfl | hp
          · exact lt_of_lt_of_le h hc0c
          · exact hpre _ hp
      · obtain ⟨pre, c, post, heq, hpre, hpost⟩ := ih best bc
        cases pre with
        | nil =>
            simp only [List.nil_append] at heq
            have h1 : (best, bc) = (max_key best bc tl, c) := (List.cons_eq_cons.mp heq).1
            have h2 : tl = post := (List.cons_eq_cons.mp heq).2
            refine ⟨[], c, (n, c0) :: post, ?_, by simp, ?_⟩
            · rw [max_key, if_neg h, List.nil_append, ← h2]
              rw [List.cons_eq_cons]
              exact ⟨h1, rfl⟩
            · intro p hp
              rcases List.mem_cons.mp hp with rfl | hp
              · have hbc : bc = c := congrArg Prod.snd h1
                exact le_trans (Nat.le_of_not_lt h) (le_of_eq hbc)
              · exact hpost _ hp
        | cons q pre =>
            rw [List.cons_append, List.cons_eq_cons] at heq
            obtain ⟨hq, htl⟩ := heq
            refine ⟨(best, bc) :: (n, c0) :: pre, c, post, ?_, ?_, hpost⟩
            · rw [max_key, if_neg h, List.cons_append, List.cons_append]
              conv_lhs => rw [htl]
            · intro p hp
              have hbcc : bc < c := by
                have := hpre q (List.mem_cons_self _ _)
                rw [← hq] at this
                exact this
              rcases List.mem_cons.mp hp with rfl | hp
              · exact hbcc
              · rcases List.mem_cons.mp hp with rfl | hp
                · exact lt_of_le_of_lt (Nat.le_of_not_lt h) hbcc
                · exact hpre _ (List.mem_cons_of_mem _ hp)

theorem map_split {α β : Type} (f : α → β) :
    ∀ (pre : List β) (l : List α) (x : β) (post : List β),
      l.map f = pre ++ x :: post →
      ∃ lp a ls, l = lp ++ a :: ls ∧ lp.map f = pre ∧ f a = x ∧ ls.map f = post := by
  intro pre
  induction pre with
  | nil =>
      intro l x post h
      cases l with
      | nil => simp at h
      | cons a ls =>
          rw [List.map_cons, List.nil_append] at h
          exact ⟨[], a, ls, rfl, rfl, (List.cons_eq_cons.mp h).1, (List.cons_eq_cons.mp h).2⟩
  | cons b pre ih =>
      intro l x post h
      cases l with
      | nil => simp at h
      | cons a t =>
          rw [List.map_cons, List.cons_append, List.cons_eq_cons] at h
          obtain ⟨lp, a2, ls, h1, h2, h3, h4⟩ := ih t x post h.2
          exact ⟨a :: lp, a2, ls, by rw [h1, List.cons_append], by rw [List.map_cons, h2, h.1], h3, h4⟩

theorem matched_names_ne_nil : ∀ {names : List String} {ms : List Bool},
    names.length = ms.length → ms.any (fun b => b) = true →
    matched_names names ms ≠ [] := by
  intro names
  induction names with
  | nil =>
      intro ms hlen hany
      cases ms with
      | nil => simp at hany
      | cons b t => simp at hlen
  | cons x rest ih =>
      intro ms hlen hany
      cases ms with
      | nil => simp at hany
      | cons b t =>
          cases b with
          | true => simp [matched_names]
          | false =>
              have hlen2 : rest.length = t.length := by simpa using hlen
              have hany2 : t.any (fun y => y) = true := by simpa using hany
              simpa [matched_names] using ih hlen2 hany2

theorem recognize_one_eq (names : List String) (encs : List Emb) (matchp : Emb → Emb → Bool)
    (encoding : Emb)
    (hany : (encs.map (fun k => matchp k encoding)).any (fun b => b) = true)
    (n0 : String) (fo : List String)
    (hFO : firstOccs (matched_names names (encs.map (fun k => matchp k encoding))) = n0 :: fo) :
    Wakeface.recognize_one names encs matchp encoding
      = some (max_key n0
          ((matched_names names (encs.map (fun k => matchp k encoding))).count n0)
          (fo.map (fun n =>
            (n, (matched_names names (encs.map (fun k => matchp k encoding))).count n)))) := by
  simp only [Wakeface.recognize_one, hany, if_true]
  rw [foldl_bump_nil, countsOf, hFO, List.map_cons]

theorem recognize_step_open (recogFn : Option Frame → List BBox → List Name)
    (frame : Option Frame) (boxes : List BBox) (hne : boxes ≠ []) (hist : History)
    (hopen : episode_open hist = true) :
    recognize_step recogFn hist (frame, boxes)
      = (new_history hist (recogFn frame boxes).eraseDups,
         some (new_history hist (recogFn frame boxes).eraseDups)) := by
  cases boxes with
  | nil => exact absurd rfl hne
  | cons b bs => simp [recognize_step, hopen]

/-- C7: `recognize` votes per embedding: with no store entry matching, the
result is the distinct unknown value (Python `None`); with at least one
match, the result is the matched store name of greatest multiplicity, ties
going to the earliest first occurrence in store order; and with an empty
store and one accepted box the emitted history after one frame is exactly
unknown -> 1. -/
theorem C7_recognition_voting :
    (∀ (names : List String) (encs : List Emb) (matchp : Emb → Emb → Bool) (encoding : Emb),
        (encs.map (fun k => matchp k encoding)).any (fun b => b) = false →
        Wakeface.recognize_one names encs matchp encoding = none) ∧
    (∀ (names : List String) (encs : List Emb) (matchp : Emb → Emb → Bool) (encoding : Emb),
        names.length = encs.length →
        (encs.map (fun k => matchp k encoding)).any (fun b => b) = true →
        ∃ n : String,
          Wakeface.recognize_one names encs matchp encoding = some n ∧
          n ∈ matched_names names (encs.map (fun k => matchp k encoding)) ∧
          (∀ m ∈ matched_names names (encs.map (fun k => matchp k encoding)),
            (matched_names names (encs.map (fun k => matchp k encoding))).count m ≤
              (matched_names names (encs.map (fun k => matchp k encoding))).count n) ∧
          (∀ m ∈ matched_names names (encs.map (fun k => matchp k encoding)),
            (matched_names names (encs.map (fun k => matchp k encoding))).count m =
                (matched_names names (encs.map (fun k => matchp k encoding))).count n →
            (matched_names names (encs.map (fun k => matchp k encoding))).indexOf n ≤
              (matched_names names (encs.map (fun k => matchp k encoding))).indexOf m)) ∧
    (∀ (matchp : Emb → Emb → Bool) (embedFn : Option Frame → List BBox → List Emb)
        (f : Frame) (b : BBox) (e : Emb),
        embedFn (some f) [b] = [e] →
        recognize_run (Wakeface.recognize [] [] matchp embedFn) [] [(some f, [b])]
          = ([(none, 1)], [[(none, 1)]])) := by
  refine ⟨?_, ?_, ?_⟩
  · intro names encs matchp encoding h
    simp [Wakeface.recognize_one, h]
  · intro names encs matchp encoding hlen hany
    set M := matched_names names (encs.map (fun k => matchp k encoding)) with hM
    have hlen2 : names.length = (encs.map (fun k => matchp k encoding)).length := by
      rw [List.length_map]; exact hlen
    have hMne : M ≠ [] := matched_names_ne_nil hlen2 hany
    cases hFO : firstOccs M with
    | nil => exact absurd (firstOccs_eq_nil hFO) hMne
    | cons n0 fo =>
        have hres := recognize_one_eq names encs matchp encoding hany n0 fo (by rw [← hM]; exact hFO)
        rw [← hM] at hres
        have hCM : countsOf M = (n0, M.count n0) :: fo.map (fun n => (n, M.count n)) := by
          rw [countsOf, hFO, List.map_cons]
        obtain ⟨pre, c, post, heq, hpre, hpost⟩ :=
          max_key_split (fo.map (fun n => (n, M.count n))) n0 (M.count n0)
        rw [← hCM] at heq
        obtain ⟨lp, a, ls, hsplit, hlpre, hfa, hlpost⟩ :=
          map_split (fun n => (n, M.count n)) pre (firstOccs M) _ post heq
        have ha_r : a = max_key n0 (M.count n0) (fo.map (fun n => (n, M.count n))) :=
          congrArg Prod.fst hfa
        have hc : M.count a = c := congrArg Prod.snd hfa
        rw [ha_r] at hsplit hc
        refine ⟨max_key n0 (M.count n0) (fo.map (fun n => (n, M.count n))), hres, ?_, ?_, ?_⟩
        · refine mem_firstOccs.mp ?_
          rw [hsplit]
          exact List.mem_append.mpr (Or.inr (List.mem_cons_self _ _))
        · intro m hm
          have hmc : (m, M.count m) ∈ countsOf M :=
            List.mem_map.mpr ⟨m, mem_firstOccs.mpr hm, rfl⟩
          rw [heq] at hmc
          rcases List.mem_append.mp hmc with hpm | hpm
          · exact le_of_lt (lt_of_lt_of_le (hpre _ hpm) (le_of_eq hc.symm))
          · rcases List.mem_cons.mp hpm with hpm | hpm
            · have h1 : M.count m = c := congrArg Prod.snd hpm
              exact le_of_le_of_eq (le_of_eq h1) hc.symm
            · exact le_trans (hpost _ hpm) (le_of_eq hc.symm)
        · intro m hm hcnt
          by_cases hmr : m = max_key n0 (M.count n0) (fo.map (fun n => (n, M.count n)))
          · rw [hmr]
          · have hmc : (m, M.count m) ∈ countsOf M :=
              List.mem_map.mpr ⟨m, mem_firstOccs.mpr hm, rfl⟩
            rw [heq] at hmc
            rcases List.mem_append.mp hmc with hpm | hpm
            · have h1 := hpre _ hpm
              rw [hcnt, hc] at h1
              exact absurd h1 (lt_irrefl c)
            · rcases List.mem_cons.mp hpm with hpm | hpm
              · exact absurd (congrArg Prod.fst hpm) hmr
              · have hmls : m ∈ ls := by
                  rw [← hlpost] at hpm
                  rcases List.mem_map.mp hpm with ⟨y, hy, hyeq⟩
                  have : y = m := congrArg Prod.fst hyeq
                  exact this ▸ hy
                have hpw := pairwise_firstOccs M
                rw [hsplit] at hpw
                have h2 := (List.pairwise_append.mp hpw).2.1
                have h3 := (List.pairwise_cons.mp h2).1 m hmls
                exact le_of_lt h3
  · intro matchp embedFn f b e hemb
    have h1 : Wakeface.recognize [] [] matchp embedFn (some f) [b] = [none] := by
      show (embedFn (some f) [b]).map (Wakeface.recognize_one [] [] matchp) = [none]
      rw [hemb]
      rfl
    have h3 : (Wakeface.recognize [] [] matchp embedFn (some f) [b]).eraseDups = [none] := by
      rw [h1]
      rfl
    have hstep := recognize_step_open (Wakeface.recognize [] [] matchp embedFn)
      (some f) [b] (by simp) [] rfl
    rw [h3] at hstep
    have h4 : new_history [] [none] = [(none, 1)] := rfl
    rw [h4] at hstep
    simp [recognize_run, hstep]

/-- Witness: no-match yields Python `None`; a two-entry store with both
entries matching yields a voted name with maximal count and earliest first
occurrence; one frame against the empty store yields history unknown -> 1. -/
theorem C7_recognition_voting_witness :
    Wakeface.recognize_one ["alice"] [[(1:ℚ)]] (fun _ _ => false) [2] = none ∧
    (∃ n : String,
      Wakeface.recognize_one ["bob", "alice"] [[(1:ℚ)], [1]] (fun _ _ => true) [1] = some n ∧
      n ∈ matched_names ["bob", "alice"] ([[(1:ℚ)], [1]].map (fun _ => true)) ∧
      (∀ m ∈ matched_names ["bob", "alice"] ([[(1:ℚ)], [1]].map (fun _ => true)),
        (matched_names ["bob", "alice"] ([[(1:ℚ)], [1]].map (fun _ => true))).count m ≤
          (matched_names ["bob", "alice"] ([[(1:ℚ)], [1]].map (fun _ => true))).count n) ∧
      (∀ m ∈ matched_names ["bob", "alice"] ([[(1:ℚ)], [1]].map (fun _ => true)),
        (matched_names ["bob", "alice"] ([[(1:ℚ)], [1]].map (fun _ => true))).count m =
            (matched_names ["bob", "alice"] ([[(1:ℚ)], [1]].map (fun _ => true))).count n →
        (matched_names ["bob", "alice"] ([[(1:ℚ)], [1]].map (fun _ => true))).indexOf n ≤
          (matched_names ["bob", "alice"] ([[(1:ℚ)], [1]].map (fun _ => true))).indexOf m)) ∧
    recognize_run (Wakeface.recognize [] [] (fun _ _ => false) (fun _ _ => [[(5:ℚ)]]))
        [] [(some 0, [⟨0, 0, 1, 1⟩])]
      = ([(none, 1)], [[(none, 1)]]) := by
  refine ⟨C7_recognition_voting.1 ["alice"] [[(1:ℚ)]] (fun _ _ => false) [2] rfl,
          C7_recognition_voting.2.1 ["bob", "alice"] [[(1:ℚ)], [1]] (fun _ _ => true) [1] rfl rfl,
          C7_recognition_voting.2.2 (fun _ _ => false) (fun _ _ => [[(5:ℚ)]]) 0 ⟨0, 0, 1, 1⟩
            [(5:ℚ)] rfl⟩
